import Mathlib

/-!
# Verification of the coordinated-multipoint notebook helpers

This file gives a shallow embedding, in Lean, of the first-party helper code of
the coordinated-multipoint demo repository (`helpers/network.py`,
`helpers/filters.py`, `helpers/general.py`, `tests/test_jn.py`), and proves or
refutes the specified properties of that code.

Conventions of the embedding:

* Python integers are `Int` (or `Nat` where the source only ever produces
  non-negative values); Python floats that occur in exact small-magnitude
  arithmetic are modelled as `ℚ` with truncation `pyInt` for Python `int()`.
* Python functions that can raise are modelled with `Except String` or
  `Option` results (`Option.none` / `Except.error` marks a raised exception or
  a non-terminating loop cut off by explicit fuel).
* Randomness (`random.sample`, `np.random.randint`, `np.random.choice`) is
  modelled by oracle parameters over which the theorems quantify universally;
  every behaviour of the Python code is a behaviour of the model for some
  oracle.
* `networkx` graphs are modelled by explicit association lists of nodes with
  their attributes and by edge lists; vendor-library primitives used by the
  code (`dwave_networkx` Pegasus coordinate conversion, numpy array
  truthiness, Python `round`) are modelled from their published semantics.
-/

/-! ## Lattice-size validation (`helpers/network.py`, `configure_network`)

The source guards `configure_network` with
`if network_size not in range(2, 17): raise ValueError("Supported lattice sizes are between 4 to 16")`.
-/

/-- `network_size in range(2, 17)` for a Python integer argument. -/
def supportedSizeCheck (network_size : Int) : Bool :=
  decide (2 ≤ network_size ∧ network_size ≤ 16)

/-- `configure_network` raises its `ValueError` exactly when the membership
test `network_size not in range(2, 17)` holds. -/
def configureNetworkRaises (network_size : Int) : Bool :=
  !(supportedSizeCheck network_size)

/-! ## `_node_to_chain` (`helpers/network.py`)

Direct transcription of the branch structure of `_node_to_chain`.  The Python
function has no `else` on its final `elif col_par == 2`, so a fall-through
would return `None`; the embedding makes that fall-through an explicit
`Option.none`.
-/

/-- A Pegasus coordinate `(u, w, k, z)`. -/
abbrev PCoord := Nat × Nat × Nat × Nat

/-- A chain: the two Pegasus coordinates representing one lattice node. -/
abbrev Chain := PCoord × PCoord

/-- `_node_to_chain(row, col)`, with the implicit fall-through modelled as
`none`. -/
def node_to_chain (row col : Nat) : Option Chain :=
  let row_par := row % 3
  let col_par := col % 3
  let x := col / 3
  let y := row / 3
  if row_par = 0 then
    if col_par = 0 then some ((0, x, 2, y), (1, y, 7, x))
    else if col_par = 1 then some ((0, x+1, 0, y), (1, y, 2, x))
    else some ((0, x+1, 3, y), (1, y, 8, x))
  else if row_par = 1 then
    if col_par = 0 then some ((0, x, 8, y), (1, y, 6, x))
    else if col_par = 1 then some ((0, x, 11, y), (1, y+1, 0, x))
    else some ((0, x, 10, y), (1, y, 11, x))
  else
    if col_par = 0 then some ((0, x, 7, y), (1, y+1, 4, x))
    else if col_par = 1 then some ((0, x, 6, y), (1, y+1, 3, x))
    else if col_par = 2 then some ((0, x+1, 4, y), (1, y, 10, x))
    else none

/-! ## The embedding returned by `configure_network`

`configure_network` ends with
`emb = {idx: [pegasus_to_linear(n[0]), pegasus_to_linear(n[1])] for idx, (tx, n) in enumerate(emb.items())}`,
re-keying the chain dictionary by `enumerate` indices.
-/

/-- A Python dictionary key as it occurs here: either an `int` (from
`enumerate`) or a `(row, col)` lattice-node tuple. -/
inductive PyKey where
  | int : Nat → PyKey
  | node : Int × Int → PyKey
deriving DecidableEq, Repr

/-- `dwave_networkx` `pegasus_coordinates(16).pegasus_to_linear`:
`(u, w, k, z)` maps to `((16*u + w)*12 + k)*15 + z` (modelled from the
published vendor implementation for `m = 16`). -/
def pegasusToLinear (c : PCoord) : Nat :=
  ((16 * c.1 + c.2.1) * 12 + c.2.2.1) * 15 + c.2.2.2

/-- The final re-keying of the embedding dictionary in `configure_network`:
`{idx: [pegasus_to_linear(n[0]), pegasus_to_linear(n[1])] for idx, (tx, n) in enumerate(emb.items())}`. -/
def finalizeEmb (emb : List ((Int × Int) × Chain)) : List (PyKey × (Nat × Nat)) :=
  emb.enum.map (fun p => (PyKey.int p.1, (pegasusToLinear p.2.2.1, pegasusToLinear p.2.2.2)))

/-! ## Run-count validation (`helpers/general.py`, `loop_comparisons`)

`if runs < 3: raise ValueError(f"Minimum supported runs is 3; got {runs}.")`.
-/

/-- The argument validation at the top of `loop_comparisons`: `ok` means the
check passed and the function proceeds to `configure_network`. -/
def loopComparisonsCheck (runs : Int) : Except String Unit :=
  if runs < 3 then
    Except.error ("Minimum supported runs is 3; got " ++ toString runs ++ ".")
  else Except.ok ()

/-! ## `create_filters` (`helpers/filters.py`) -/

/-- `ALL_METHODS = ['zero_forcing', 'matched_filter', 'MMSE']`. -/
def ALL_METHODS : List String := ["zero_forcing", "matched_filter", "MMSE"]

/-- The methods actually used by `create_filters`: `if not methods: methods =
ALL_METHODS` treats both `None` and an empty list as falsy. -/
def resolvedMethods (methods : Option (List String)) : List String :=
  match methods with
  | none => ALL_METHODS
  | some ms => if ms.isEmpty then ALL_METHODS else ms

/-- `create_filters`, modelled up to the list of dictionary keys it creates
(the filter matrices themselves are produced by the vendor library).  The
`elif unknown := set(methods).difference(ALL_METHODS): raise ValueError(...)`
branch is the error case; the Python message interpolates the unknown set and
is abbreviated here. -/
def create_filters (methods : Option (List String)) : Except String (List String) :=
  match methods with
  | none => Except.ok (ALL_METHODS.map (fun m => "filter_" ++ m))
  | some ms =>
    if ms.isEmpty then Except.ok (ALL_METHODS.map (fun m => "filter_" ++ m))
    else if ms.any (fun m => decide (m ∉ ALL_METHODS)) then
      Except.error "filter not supported"
    else Except.ok (ms.map (fun m => "filter_" ++ m))

/-! ## `compare_signals` (`helpers/filters.py`) -/

/-- The possible first arguments of `compare_signals`: a dict of decoded
signals, a `dimod.SampleSet` (represented by the value list of its first
sample), a numpy array (represented flattened), or anything else. -/
inductive CSInput where
  | dict : List (String × List Int) → CSInput
  | sampleSet : List Int → CSInput
  | ndarray : List Int → CSInput
  | other : CSInput

/-- A value returned by `compare_signals`: a rounded percentage or a dict of
rounded percentages. -/
inductive CSValue where
  | num : Nat → CSValue
  | dict : List (String × Nat) → CSValue
deriving DecidableEq, Repr

/-- Python `round(100*k/n)` on the exact ratio of non-negative integers:
round half to even (banker's rounding), as Python's `round` does. -/
def pyRound100 (k n : Nat) : Nat :=
  let q := (100 * k) / n
  let r := (100 * k) % n
  if 2 * r < n then q
  else if n < 2 * r then q + 1
  else if q % 2 = 0 then q else q + 1

/-- `sum(a == b)` for two equal-length flattened numpy arrays: the number of
positions where the entries agree. -/
def matchCount (a b : List Int) : Nat :=
  (a.zip b).countP (fun p => p.1 = p.2)

/-- `compare_signals(v, transmission, silent_return)`.  The result is the
returned value (`none` models Python's implicit `return None`) together with
the list of printed lines; `Except.error` models the `raise ValueError`. -/
def compare_signals (v : CSInput) (transmission : List Int) (silent_return : Bool) :
    Except String (Option CSValue × List String) :=
  match v with
  | CSInput.dict d =>
    let success_rate : List (String × Nat) :=
      d.map (fun p => (p.1, pyRound100 (matchCount p.2 transmission) transmission.length))
    if !silent_return then
      Except.ok (none, success_rate.map
        (fun p => p.1 ++ ": decoded with a success rate of " ++ toString p.2 ++ "%."))
    else Except.ok (some (CSValue.dict success_rate), [])
  | CSInput.sampleSet s =>
    let sr := pyRound100 (matchCount s transmission) transmission.length
    if !silent_return then
      Except.ok (none, ["Decoded with a success rate of " ++ toString sr ++ "%."])
    else Except.ok (some (CSValue.num sr), [])
  | CSInput.ndarray a =>
    let sr := pyRound100 (matchCount a transmission) transmission.length
    if !silent_return then
      Except.ok (none, ["Decoded with a success rate of " ++ toString sr ++ "%."])
    else Except.ok (some (CSValue.num sr), [])
  | CSInput.other => Except.error "Unknown signal type"

/-! ## The integration-test skip condition (`tests/test_jn.py`)

`@unittest.skipIf(os.getenv('SKIP_INT_TESTS'), "Skipping integration test.")`:
the test is skipped exactly when `os.getenv` returns a truthy value, i.e. when
the variable is set to a non-empty string.
-/

/-- Whether `test_jn` is skipped, as a function of the value of the
environment variable (`none` when unset): Python string truthiness applied to
`os.getenv('SKIP_INT_TESTS')`. -/
def skipIntTestsSkips (env : Option String) : Bool :=
  match env with
  | none => false
  | some s => s ≠ ""

/-! ## `simulate_signals` (`helpers/network.py`)

`if not transmitted_symbols:` applies Python truthiness to a value that is
either `None` or a numpy array; numpy raises `ValueError` on the truth value
of an array with more than one element.
-/

/-- `not x` for `x` either `None` or a numpy integer array (represented
flattened): `None` is falsy; a one-element array has the truth value of its
element; an empty array is falsy; an array with more than one element raises
(numpy's ambiguous-truth-value error). -/
def pyNotOfArray (x : Option (List Int)) : Except String Bool :=
  match x with
  | none => Except.ok true
  | some [] => Except.ok true
  | some [a] => Except.ok (a = 0)
  | some _ => Except.error "The truth value of an array with more than one element is ambiguous"

/-- `simulate_signals`, modelled up to the transmitted symbols actually used
(the received signal itself is produced by the vendor library from those
symbols).  `num_tx` is `channels.shape[1]` and `choice` is the oracle behind
`np.random.choice([1, -1], size=[num_tx, 1])`. -/
def simulate_signals_symbols (transmitted_symbols : Option (List Int)) (num_tx : Nat)
    (choice : Nat → Bool) : Except String (List Int) :=
  match pyNotOfArray transmitted_symbols with
  | Except.error e => Except.error e
  | Except.ok b =>
    if b then
      Except.ok ((List.range num_tx).map (fun i => if choice i then 1 else -1))
    else Except.ok (transmitted_symbols.getD [])

/-! ## `_create_lattice` (`helpers/network.py`)

The loop of `_create_lattice` is modelled as a state machine over an abstract
target graph `T : PCoord → PCoord → Bool` (`target.has_edge`), which covers
both the full-yield Pegasus target and any QPU-restricted target.  The state
carries the embedding dictionary `emb`, and the node and edge sets of the
`source` graph.  The `sourceF` graph and the two defect counters of the
source are dead for the function's return value and are omitted.
-/

/-- A node of the source lattice, `(row, col)`.  `Int` coordinates so that
the backward neighbours `(row-1, col-1)` etc. exist at the boundary (where
they are simply absent from the graph, as in the source). -/
abbrev LNode := Int × Int

/-- The state built by the `_create_lattice` loop: the embedding dictionary
and the node and edge lists of `source`. -/
structure LatticeState where
  emb : List (LNode × Chain)
  nodes : List LNode
  edges : List (LNode × LNode)
deriving DecidableEq, Repr

/-- Dictionary lookup in the embedding (first matching key). -/
def lookupEmb : List (LNode × Chain) → LNode → Option Chain
  | [], _ => none
  | (k, c) :: rest, v => if v = k then some c else lookupEmb rest v

/-- `any(target.has_edge(v1, v2) for v1 in emb[v] for v2 in emb[v_back])`. -/
def anyConnected (T : PCoord → PCoord → Bool) (c1 c2 : Chain) : Bool :=
  T c1.1 c2.1 || T c1.1 c2.2 || T c1.2 c2.1 || T c1.2 c2.2

/-- The backward neighbour offsets `[(0, -1), (-1, 0), (-1, -1), (-1, 1)]`. -/
def latticeDeltas : List (Int × Int) := [(0, -1), (-1, 0), (-1, -1), (-1, 1)]

/-- `source.remove_node(v_back)` together with `del emb[v_back]`: the node,
its embedding entry, and all incident edges are removed. -/
def removeLatticeNode (st : LatticeState) (vb : LNode) : LatticeState where
  emb := st.emb.filter (fun p => decide (p.1 ≠ vb))
  nodes := st.nodes.filter (fun n => decide (n ≠ vb))
  edges := st.edges.filter (fun e => decide (e.1 ≠ vb ∧ e.2 ≠ vb))

/-- One iteration of the backward-neighbour loop for the freshly added node
`v`: if `v_back` is a source node, either add the edge `(v, v_back)` (when
some pair of chain qubits is connected in the target) or remove `v_back` as
an edge defect.  The embedding lookups always succeed when the loop invariant
holds (proved below); the fallback branch is unreachable. -/
def procDelta (T : PCoord → PCoord → Bool) (v : LNode) (st : LatticeState)
    (delta : Int × Int) : LatticeState :=
  let vb : LNode := (v.1 + delta.1, v.2 + delta.2)
  if vb ∈ st.nodes then
    match lookupEmb st.emb v, lookupEmb st.emb vb with
    | some cv, some cb =>
      if anyConnected T cv cb then { st with edges := (v, vb) :: st.edges }
      else removeLatticeNode st vb
    | _, _ => st
  else st

/-- `_node_to_chain(row, col)` as used by `_create_lattice`; the fall-through
is unreachable (proved below), so a junk default is supplied. -/
def nodeToChainTotal (row col : Nat) : Chain :=
  (node_to_chain row col).getD ((0, 0, 0, 0), (0, 0, 0, 0))

/-- The body of the nested `for row ... for col ...` loop of
`_create_lattice` at position `rc = (row, col)`. -/
def procNode (T : PCoord → PCoord → Bool) (st : LatticeState) (rc : Nat × Nat) :
    LatticeState :=
  let v : LNode := ((rc.1 : Int), (rc.2 : Int))
  let edge := nodeToChainTotal rc.1 rc.2
  if T edge.1 edge.2 then
    latticeDeltas.foldl (procDelta T v)
      { emb := (v, edge) :: st.emb, nodes := v :: st.nodes, edges := st.edges }
  else st

/-- The row-major grid positions `(row, col)` for `row, col in range(scale)`. -/
def gridPositions (scale : Nat) : List (Nat × Nat) :=
  (List.range scale).product (List.range scale)

/-- `_create_lattice` for lattice scale `3*(network_size - 1)`, over an
abstract target graph. -/
def create_lattice (T : PCoord → PCoord → Bool) (scale : Nat) : LatticeState :=
  (gridPositions scale).foldl (procNode T) ⟨[], [], []⟩

/-! ## The receiver phase of `configure_network` (`helpers/network.py`)

Lines 171-215 of `network.py`: starting from the source-lattice nodes, the
code adds four diagonal receiver nodes around every transmitter, zeroes the
boundary receivers, dilutes receivers toward the requested Tx/Rx ratio in a
`while` loop, and finally promotes one neighbour of every
receiver-disconnected transmitter back to a receiver.

Coordinates are scaled by 2 in the model so that the Python half-integer
receiver offsets `±0.5` stay integral: a source node `(r, c)` becomes
`(2r, 2c)` and its receivers `(2r ± 1, 2c ± 1)`.  The scaling is a strictly
monotone change of coordinates, so the lexicographic `min`/`max` used for the
boundary bounds is preserved.

Python floats (`ratio`, `0.02*num_tx`, `num_tx/ratio`) are modelled as exact
rationals; `int()` is truncation toward zero.  `random.sample` and
`np.random.randint` are oracles.  The `while` loop gets explicit fuel; `none`
means the Python call raised or did not terminate, i.e. nothing was returned.
-/

/-- The network under construction: an association list from node to its
`(num_transmitters, num_receivers)` attributes, and the edge list. -/
structure MNetwork where
  attrs : List (LNode × Nat × Nat)
  edges : List (LNode × LNode)
deriving DecidableEq, Repr

/-- Attribute lookup, `network.nodes[n]` (first matching key). -/
def attrLookup : List (LNode × Nat × Nat) → LNode → Option (Nat × Nat)
  | [], _ => none
  | (k, a) :: rest, n => if n = k then some a else attrLookup rest n

/-- `network.nodes[n]['num_receivers']` (0 when the node is absent; every
node of the constructed network carries the attribute). -/
def rxOf (net : MNetwork) (n : LNode) : Nat :=
  match attrLookup net.attrs n with
  | some a => a.2
  | none => 0

/-- `network.adj[n]`: the neighbours of `n` read off the edge list. -/
def adjList (net : MNetwork) (n : LNode) : List LNode :=
  net.edges.filterMap (fun e =>
    if e.1 = n then some e.2 else if e.2 = n then some e.1 else none)

/-- `network.add_nodes_from(...)` for a single node with given attributes:
an existing node has its attributes overwritten, a new node is appended. -/
def addOrUpdate : List (LNode × Nat × Nat) → LNode → Nat × Nat → List (LNode × Nat × Nat)
  | [], k, a => [(k, a)]
  | (k', a') :: rest, k, a =>
    if k = k' then (k, a) :: rest else (k', a') :: addOrUpdate rest k a

/-- Setting `num_receivers := v` on every node satisfying `p`, the shape of
every attribute update after the network is built (boundary zeroing, dilution
zeroing, and the final promotion). -/
def setRxWhere (p : LNode → Bool) (v : Nat) (net : MNetwork) : MNetwork where
  attrs := net.attrs.map (fun e => if p e.1 then (e.1, (e.2.1, v)) else e)
  edges := net.edges

/-- The receiver offsets `(x, y) for x in [-0.5, 0.5] for y in [-0.5, 0.5]`,
in doubled coordinates. -/
def rxOffsets : List (Int × Int) := [(-1, -1), (-1, 1), (1, -1), (1, 1)]

/-- The receiver-adding loop: for each (snapshot) network node `n`, add the
four diagonal receiver nodes with `num_receivers=1, num_transmitters=0` and
the edges from `n` to them. -/
def addRxNodes (net : MNetwork) (txs : List LNode) : MNetwork :=
  txs.foldl (fun acc n =>
    let rxs := rxOffsets.map (fun d => (n.1 + d.1, n.2 + d.2))
    { attrs := rxs.foldl (fun a p => addOrUpdate a p (0, 1)) acc.attrs,
      edges := acc.edges ++ rxs.map (fun p => (n, p)) }) net

/-- Lexicographic order on nodes, as Python compares tuples. -/
def lexLt (a b : LNode) : Bool :=
  a.1 < b.1 || (a.1 = b.1 && a.2 < b.2)

/-- `min(network.nodes())` (lexicographic); junk on the empty list, which the
caller guards against (Python raises there). -/
def pyMinNode : List LNode → LNode
  | [] => (0, 0)
  | x :: xs => xs.foldl (fun a b => if lexLt b a then b else a) x

/-- `max(network.nodes())` (lexicographic); junk on the empty list. -/
def pyMaxNode : List LNode → LNode
  | [] => (0, 0)
  | x :: xs => xs.foldl (fun a b => if lexLt a b then b else a) x

/-- `[n for n, v in nx.get_node_attributes(network, "num_receivers").items() if v == 1]`. -/
def rxNodesOf (net : MNetwork) : List LNode :=
  (net.attrs.filter (fun e => e.2.2 = 1)).map (fun e => e.1)

/-- `[n for n, v in nx.get_node_attributes(network, "num_transmitters").items() if v == 1]`. -/
def txNodesOf (net : MNetwork) : List LNode :=
  (net.attrs.filter (fun e => e.2.1 = 1)).map (fun e => e.1)

/-- `int(0.02*num_tx)`: the per-pass deletion budget of the dilution loop. -/
def diluteBudget (numTx : Nat) : Nat := 2 * numTx / 100

/-- The receiver-dilution `while` loop, with explicit fuel.  `sampleO` is the
oracle behind `random.sample(rx_max_adj_rx, ...)`; quantifying over all
oracles over-approximates its distinct-`k`-subset guarantee.  `none` models a
raised exception (`max` of an empty sequence) or running out of fuel.
The float comparisons and `int()` are modelled exactly over the rationals in
integer form: `num_rx_to_delete > 0.02*num_tx` is `100*d > 2*num_tx`, and
`int(num_rx - num_tx/ratio)` is the truncated integer division
`(num_rx*ratio.num - num_tx*ratio.den) / ratio.num` (Lean's `Int` division
truncates toward zero, as Python `int()` does). -/
def diluteLoop (numTx : Nat) (ratio : ℚ) (sampleO : Nat → List LNode → Nat → List LNode) :
    Nat → MNetwork → List LNode → Int → Option MNetwork
  | 0, net, _, num_rx_to_delete =>
    if 100 * num_rx_to_delete > 2 * (numTx : Int) then none else some net
  | fuel + 1, net, rx_nodes, num_rx_to_delete =>
    if ¬ (100 * num_rx_to_delete > 2 * (numTx : Int)) then some net
    else if rx_nodes.isEmpty then none
    else
      let adj_tx_adj_rx : List (LNode × Nat) := rx_nodes.map (fun rx =>
        (rx, ((adjList net rx).map (fun tx =>
          ((adjList net tx).map (fun n => rxOf net n)).sum)).sum))
      let mx := (adj_tx_adj_rx.map (fun e => e.2)).foldl max 0
      let rx_max_adj_rx := (adj_tx_adj_rx.filter (fun e => e.2 = mx)).map (fun e => e.1)
      let k := min rx_max_adj_rx.length (diluteBudget numTx)
      let rx_to_delete := sampleO fuel rx_max_adj_rx k
      let net' := setRxWhere (fun n => rx_to_delete.contains n) 0 net
      let rx_nodes' := rxNodesOf net'
      let num_rx_to_delete' :=
        ((rx_nodes'.length : Int) * ratio.num - (numTx : Int) * (ratio.den : Int)) / ratio.num
      diluteLoop numTx ratio sampleO fuel net' rx_nodes' num_rx_to_delete'

/-- The disconnected-transmitter fix-up loop.  `pick i` is the oracle behind
`np.random.randint(0, len(candidates))` at the `i`-th transmitter; `none`
models the raise on an empty candidate list. -/
def fixupLoop (pick : Nat → Nat) : List LNode → Nat → MNetwork → Option MNetwork
  | [], _, net => some net
  | tx :: rest, i, net =>
    let nbrs := adjList net tx
    let num_rx_neighbors := (nbrs.map (fun n => rxOf net n)).sum
    if num_rx_neighbors = 0 then
      let candidates := nbrs.filter (fun n => rxOf net n = 0)
      if candidates.isEmpty then none
      else
        let add_rx := candidates.getD (pick i % candidates.length) (0, 0)
        fixupLoop pick rest (i + 1) (setRxWhere (fun n => n = add_rx) 1 net)
    else fixupLoop pick rest (i + 1) net

/-- Lines 171-215 of `configure_network`: build the transmitter/receiver
network from the source-lattice nodes.  `srcNodes` are the nodes of the
source returned by `_create_lattice` (doubled inside, see above); `ratio`,
`fuel`, `sampleO` and `pick` are as described; `none` models a raised
exception or a non-terminating dilution. -/
def initialNetwork (dts : List LNode) : MNetwork := ⟨dts.map (fun n => (n, (1, 0))), []⟩

/-- The boundary-receiver removal (`# Remove boundary receivers (no ISI)`):
zero `num_receivers` on every node whose row or column equals the
lexicographic-minimum or -maximum first coordinate. -/
def boundaryNetwork (net1 : MNetwork) : MNetwork :=
  setRxWhere (fun n =>
    n.1 = (pyMinNode (net1.attrs.map (fun e => e.1))).1 ||
    n.1 = (pyMaxNode (net1.attrs.map (fun e => e.1))).1 ||
    n.2 = (pyMinNode (net1.attrs.map (fun e => e.1))).1 ||
    n.2 = (pyMaxNode (net1.attrs.map (fun e => e.1))).1) 0 net1

/-- Lines 171-215 of `configure_network`: build the transmitter/receiver
network from the source-lattice nodes.  `srcNodes` are the nodes of the
source returned by `_create_lattice` (doubled inside, see above); `ratio`,
`fuel`, `sampleO` and `pick` are as described; `none` models a raised
exception or a non-terminating dilution. -/
def configureNetworkPhase (srcNodes : List (Int × Int)) (ratio : ℚ) (fuel : Nat)
    (sampleO : Nat → List LNode → Nat → List LNode) (pick : Nat → Nat) :
    Option MNetwork :=
  let dts : List LNode := srcNodes.map (fun n => (2 * n.1, 2 * n.2))
  let net1 := addRxNodes (initialNetwork dts) dts
  if net1.attrs.isEmpty then none
  else
    let net2 := boundaryNetwork net1
    let rx_nodes := rxNodesOf net2
    let tx_nodes := txNodesOf net2
    if ratio = 0 then none
    else
      match diluteLoop tx_nodes.length ratio sampleO fuel net2 rx_nodes
          (((rx_nodes.length : Int) * ratio.num -
            (tx_nodes.length : Int) * (ratio.den : Int)) / ratio.num) with
      | none => none
      | some net3 => fixupLoop pick tx_nodes 0 net3

/-- `a` and `b` are neighbours in the network. -/
def isNeighbor (net : MNetwork) (a b : LNode) : Prop :=
  (a, b) ∈ net.edges ∨ (b, a) ∈ net.edges

/-! ## Invariant predicates and sample inputs used by the theorems -/

/-- A concrete one-entry chain dictionary, as `_create_lattice` would build
for the lattice node `(5, 7)` (`_node_to_chain(5, 7)`). -/
def sampleEmb : List ((Int × Int) × Chain) := [((5, 7), ((0, 2, 6, 1), (1, 2, 3, 2)))]

/-- The key set of the embedding dictionary equals the node set of the
source graph. -/
def EmbNodesSync (st : LatticeState) : Prop :=
  ∀ v, (lookupEmb st.emb v).isSome = true ↔ v ∈ st.nodes

/-- Every chain stored in the embedding is an edge of the target graph. -/
def ChainsInTarget (T : PCoord → PCoord → Bool) (st : LatticeState) : Prop :=
  ∀ v c, lookupEmb st.emb v = some c → T c.1 c.2 = true

/-- Every edge of the source graph joins two embedded nodes whose chains are
connected by a target edge. -/
def EdgesConnected (T : PCoord → PCoord → Bool) (st : LatticeState) : Prop :=
  ∀ e ∈ st.edges, ∃ c1 c2, lookupEmb st.emb e.1 = some c1 ∧
    lookupEmb st.emb e.2 = some c2 ∧ anyConnected T c1 c2 = true

/-- The loop invariant of `_create_lattice`. -/
def LatticeInv (T : PCoord → PCoord → Bool) (st : LatticeState) : Prop :=
  EmbNodesSync st ∧ ChainsInTarget T st ∧ EdgesConnected T st

/-- Every `num_receivers` attribute in the network is 0 or 1. -/
def RxLe1 (net : MNetwork) : Prop := ∀ e ∈ net.attrs, e.2.2 ≤ 1

/-- Every edge endpoint is a node of the network (carries attributes). -/
def EdgesKeys (net : MNetwork) : Prop :=
  ∀ e ∈ net.edges, (attrLookup net.attrs e.1).isSome = true ∧
    (attrLookup net.attrs e.2).isSome = true

/-! ## Theorems -/

/-- C1 (code bug): `configure_network`'s docstring and its own error message
say the supported lattice sizes are 4 to 16, but the guard tests membership in
`range(2, 17)`: at `network_size = 3` (and 2) the check passes and no
`ValueError` is raised, although 3 is not a supported size. -/
theorem configure_network_size_check_bug :
    configureNetworkRaises 3 = false ∧ configureNetworkRaises 2 = false ∧
      ¬ (4 ≤ (3 : Int) ∧ (3 : Int) ≤ 16 ∧ 4 ≤ (2 : Int)) := by
  decide

/-- C3: `_node_to_chain` always returns a defined chain (the fall-through
returning `None` is unreachable), and the result is fully determined by
`row % 3`, `col % 3`, `row / 3` and `col / 3`. -/
theorem node_to_chain_total_det (row col : Nat) :
    (node_to_chain row col).isSome = true ∧
    ∀ row' col' : Nat, row % 3 = row' % 3 → col % 3 = col' % 3 →
      row / 3 = row' / 3 → col / 3 = col' / 3 →
      node_to_chain row col = node_to_chain row' col' := by
  constructor
  · have hr : row % 3 = 0 ∨ row % 3 = 1 ∨ row % 3 = 2 := by omega
    have hc : col % 3 = 0 ∨ col % 3 = 1 ∨ col % 3 = 2 := by omega
    rcases hr with h1 | h1 | h1 <;> rcases hc with h2 | h2 | h2 <;>
      simp [node_to_chain, h1, h2]
  · intro row' col' h1 h2 h3 h4
    have hr : row = row' := by omega
    have hc : col = col' := by omega
    rw [hr, hc]

/-- Witness for `node_to_chain_total_det` at `(5, 7)`. -/
theorem node_to_chain_total_det_witness :
    (node_to_chain 5 7).isSome = true ∧ node_to_chain 5 7 = node_to_chain 5 7 :=
  ⟨(node_to_chain_total_det 5 7).1,
   (node_to_chain_total_det 5 7).2 5 7 rfl rfl rfl rfl⟩

/-- C4: `loop_comparisons` raises its `ValueError` exactly when `runs < 3`;
for `runs ≥ 3` the validation passes. -/
theorem loop_comparisons_runs_check (runs : Int) :
    ((∃ msg, loopComparisonsCheck runs = Except.error msg) ↔ runs < 3) ∧
    (loopComparisonsCheck runs = Except.ok () ↔ 3 ≤ runs) := by
  by_cases h : runs < 3 <;> simp [loopComparisonsCheck, h] <;> omega

/-- Witness for `loop_comparisons_runs_check` at `runs = 2` and `runs = 5`. -/
theorem loop_comparisons_runs_check_witness :
    (∃ msg, loopComparisonsCheck 2 = Except.error msg) ∧
      loopComparisonsCheck 5 = Except.ok () :=
  ⟨(loop_comparisons_runs_check 2).1.mpr (by decide),
   (loop_comparisons_runs_check 5).2.mpr (by decide)⟩

/-- C7 (counterexample): setting `SKIP_INT_TESTS` does not always skip the
test: `os.getenv` returns the raw string and `skipIf` applies truthiness, so
the empty string is set yet does not skip. -/
theorem skip_int_tests_counterexample :
    ¬ (∀ s : String, skipIntTestsSkips (some s) = true) := by
  intro h
  have h0 := h ""
  simp [skipIntTestsSkips] at h0

/-- C7 (amended): the test is skipped iff the variable is set to a non-empty
string; in particular it runs when the variable is unset. -/
theorem skip_int_tests_skip_iff (env : Option String) :
    (skipIntTestsSkips env = true ↔ ∃ s, env = some s ∧ s ≠ "") ∧
      skipIntTestsSkips none = false := by
  refine ⟨?_, rfl⟩
  cases env with
  | none => simp [skipIntTestsSkips]
  | some s => by_cases h : s = "" <;> simp [skipIntTestsSkips, h]

/-- Witness for `skip_int_tests_skip_iff` at value `"1"`. -/
theorem skip_int_tests_skip_iff_witness :
    skipIntTestsSkips (some "1") = true :=
  (skip_int_tests_skip_iff (some "1")).1.mpr ⟨"1", rfl, by decide⟩

/-- C2 (counterexample): in the dictionary returned by `configure_network`,
the keys are not the lattice nodes of the source: for the one-node chain
dictionary `sampleEmb` the only returned key is the `enumerate` index `0`,
not the lattice node `(5, 7)`. -/
theorem configure_network_emb_keys_counterexample :
    ¬ (∀ k ∈ (finalizeEmb sampleEmb).map Prod.fst,
        ∃ v ∈ sampleEmb.map Prod.fst, k = PyKey.node v) := by
  decide

/-- C2 (amended): the dictionary returned by `configure_network` maps the
`enumerate` indices `0, 1, ...` (not lattice nodes) to the pairs of linear
hardware qubit indices obtained by `pegasus_to_linear` from the two Pegasus
coordinates of each chain. -/
theorem configure_network_emb_enumerated (emb : List ((Int × Int) × Chain)) :
    finalizeEmb emb =
      ((List.range emb.length).map PyKey.int).zip
        (emb.map (fun e => (pegasusToLinear e.2.1, pegasusToLinear e.2.2))) := by
  rw [finalizeEmb, List.enum_eq_zip_range, List.zip_map]
  apply List.map_congr_left
  intro a _
  rfl

/-- C5: `create_filters` raises exactly when a provided method name is
unknown; `None` and the empty list default to all three methods; every key
has the form `filter_<method>` for a requested or defaulted method. -/
theorem create_filters_validation (methods : Option (List String)) :
    ((∃ e, create_filters methods = Except.error e) ↔
      ∃ ms, methods = some ms ∧ ∃ m ∈ ms, m ∉ ALL_METHODS) ∧
    create_filters none = Except.ok (ALL_METHODS.map (fun m => "filter_" ++ m)) ∧
    create_filters (some []) = Except.ok (ALL_METHODS.map (fun m => "filter_" ++ m)) ∧
    (∀ keys, create_filters methods = Except.ok keys →
      ∀ k ∈ keys, ∃ m ∈ resolvedMethods methods, k = "filter_" ++ m) := by
  refine ⟨⟨?_, ?_⟩, rfl, rfl, ?_⟩
  · rintro ⟨e, he⟩
    cases methods with
    | none => simp [create_filters] at he
    | some ms =>
      refine ⟨ms, rfl, ?_⟩
      by_cases hemp : ms.isEmpty = true
      · rw [create_filters, if_pos hemp] at he
        simp at he
      · by_cases h : ms.any (fun m => decide (m ∉ ALL_METHODS)) = true
        · simpa only [List.any_eq_true, decide_eq_true_eq] using h
        · rw [create_filters, if_neg hemp, if_neg h] at he
          simp at he
  · rintro ⟨ms, rfl, x, hxm, hxn⟩
    have hne : ¬ ms.isEmpty = true := by
      simpa [List.isEmpty_iff] using List.ne_nil_of_mem hxm
    have h : ms.any (fun m => decide (m ∉ ALL_METHODS)) = true := by
      simp only [List.any_eq_true, decide_eq_true_eq]
      exact ⟨x, hxm, hxn⟩
    refine ⟨"filter not supported", ?_⟩
    rw [create_filters, if_neg hne, if_pos h]
  · intro keys hk x hx
    cases methods with
    | none =>
      simp only [create_filters, Except.ok.injEq] at hk
      subst hk
      simp only [List.mem_map] at hx
      obtain ⟨m, hm, hfx⟩ := hx
      exact ⟨m, by simpa [resolvedMethods] using hm, hfx.symm⟩
    | some ms =>
      by_cases hemp : ms.isEmpty = true
      · rw [create_filters, if_pos hemp] at hk
        cases hk
        simp only [List.mem_map] at hx
        obtain ⟨m, hm, hfx⟩ := hx
        exact ⟨m, by simp [resolvedMethods, hemp, hm], hfx.symm⟩
      · by_cases h : ms.any (fun m => decide (m ∉ ALL_METHODS)) = true
        · rw [create_filters, if_neg hemp, if_pos h] at hk
          cases hk
        · rw [create_filters, if_neg hemp, if_neg h] at hk
          cases hk
          simp only [List.mem_map] at hx
          obtain ⟨m, hm, hfx⟩ := hx
          exact ⟨m, by simp [resolvedMethods, hemp, hm], hfx.symm⟩

/-- Witness for `create_filters_validation`: an unknown method name raises,
and `None` defaults to all three filters. -/
theorem create_filters_validation_witness :
    (∃ e, create_filters (some ["bogus"]) = Except.error e) ∧
      create_filters none = Except.ok (ALL_METHODS.map (fun m => "filter_" ++ m)) :=
  ⟨(create_filters_validation (some ["bogus"])).1.mpr
      ⟨["bogus"], rfl, "bogus", by decide, by decide⟩,
   (create_filters_validation none).2.1⟩

/-- C6: on a numpy-array input, `compare_signals` with `silent_return=True`
returns the rounded percentage of agreeing positions and prints nothing; with
`silent_return=False` it prints the success-rate line and returns `None`; on
an input that is neither dict, `SampleSet` nor array it raises `ValueError`. -/
theorem compare_signals_ndarray_behavior (a t : List Int) (hne : t ≠ [])
    (hlen : a.length = t.length) :
    compare_signals (CSInput.ndarray a) t true =
      Except.ok (some (CSValue.num (pyRound100 (matchCount a t) t.length)), []) ∧
    compare_signals (CSInput.ndarray a) t false =
      Except.ok (none,
        ["Decoded with a success rate of " ++
          toString (pyRound100 (matchCount a t) t.length) ++ "%."]) ∧
    (∀ s : Bool, compare_signals CSInput.other t s = Except.error "Unknown signal type") := by
  refine ⟨rfl, rfl, fun s => rfl⟩

/-- Witness for `compare_signals_ndarray_behavior` on `[1, -1, 1]` against
`[1, 1, 1]`. -/
theorem compare_signals_ndarray_behavior_witness :
    compare_signals (CSInput.ndarray [1, -1, 1]) [1, 1, 1] true =
      Except.ok (some (CSValue.num
        (pyRound100 (matchCount [1, -1, 1] [1, 1, 1]) ([1, 1, 1] : List Int).length)), []) :=
  (compare_signals_ndarray_behavior [1, -1, 1] [1, 1, 1] (by decide) (by decide)).1

/-- C10: `simulate_signals` generates random BPSK symbols in `{1, -1}` when
`transmitted_symbols` is `None`, and the `not transmitted_symbols` guard
raises on every provided array with more than one element, before any signal
is created. -/
theorem simulate_signals_symbols_guard (num_tx : Nat) (choice : Nat → Bool)
    (arr : List Int) :
    (simulate_signals_symbols none num_tx choice =
        Except.ok ((List.range num_tx).map (fun i => if choice i then 1 else -1)) ∧
      ∀ s ∈ (List.range num_tx).map (fun i => if choice i then (1 : Int) else -1),
        s = 1 ∨ s = -1) ∧
    (1 < arr.length →
      simulate_signals_symbols (some arr) num_tx choice =
        Except.error "The truth value of an array with more than one element is ambiguous") := by
  constructor
  · constructor
    · rfl
    · intro s hs
      simp only [List.mem_map] at hs
      obtain ⟨i, _, hi⟩ := hs
      by_cases h : choice i
      · left; rw [← hi]; simp [h]
      · right; rw [← hi]; simp [h]
  · intro hlen
    match arr, hlen with
    | a :: b :: rest, _ => rfl

/-- Witness for `simulate_signals_symbols_guard`: a provided two-element
array makes the truthiness guard raise. -/
theorem simulate_signals_symbols_guard_witness :
    simulate_signals_symbols (some [1, -1]) 2 (fun _ => true) =
      Except.error "The truth value of an array with more than one element is ambiguous" :=
  (simulate_signals_symbols_guard 2 (fun _ => true) [1, -1]).2 (by decide)

/-! ### The `_create_lattice` loop invariant -/

/-- Dictionary lookup after deleting key `vb`. -/
theorem lookupEmb_filter_ne (l : List (LNode × Chain)) (vb v : LNode) :
    lookupEmb (l.filter (fun p => decide (p.1 ≠ vb))) v =
      if v = vb then none else lookupEmb l v := by
  induction l with
  | nil => by_cases h : v = vb <;> simp [lookupEmb, h]
  | cons hd tl ih =>
    obtain ⟨k, c⟩ := hd
    by_cases hk : k = vb <;> by_cases hv : v = k <;>
      simp_all [List.filter_cons, lookupEmb]

/-- Cons step of dictionary lookup. -/
theorem lookupEmb_cons (k : LNode) (c : Chain) (l : List (LNode × Chain)) (u : LNode) :
    lookupEmb ((k, c) :: l) u = if u = k then some c else lookupEmb l u := rfl

/-- Node removal preserves the `_create_lattice` invariant. -/
theorem removeLatticeNode_inv (T : PCoord → PCoord → Bool) (st : LatticeState)
    (vb : LNode) (h : LatticeInv T st) : LatticeInv T (removeLatticeNode st vb) := by
  obtain ⟨hsync, hchain, hedge⟩ := h
  refine ⟨?_, ?_, ?_⟩
  · intro u
    show (lookupEmb (st.emb.filter _) u).isSome = true ↔ u ∈ st.nodes.filter _
    rw [lookupEmb_filter_ne]
    by_cases hu : u = vb
    · simp [hu, List.mem_filter]
    · simp only [hu, ite_false, List.mem_filter, decide_eq_true_eq]
      rw [hsync u]
      simp [hu]
  · intro u c hc
    rw [show (removeLatticeNode st vb).emb = st.emb.filter (fun p => decide (p.1 ≠ vb)) from rfl,
      lookupEmb_filter_ne] at hc
    by_cases hu : u = vb
    · rw [if_pos hu] at hc; cases hc
    · rw [if_neg hu] at hc; exact hchain u c hc
  · intro e he
    have hmem : e ∈ st.edges ∧ (e.1 ≠ vb ∧ e.2 ≠ vb) := by
      simpa [removeLatticeNode, List.mem_filter] using he
    obtain ⟨c1, c2, h1, h2, hc⟩ := hedge e hmem.1
    refine ⟨c1, c2, ?_, ?_, hc⟩
    · show lookupEmb (st.emb.filter _) e.1 = some c1
      rw [lookupEmb_filter_ne, if_neg hmem.2.1]; exact h1
    · show lookupEmb (st.emb.filter _) e.2 = some c2
      rw [lookupEmb_filter_ne, if_neg hmem.2.2]; exact h2

/-- One backward-neighbour step preserves the invariant. -/
theorem procDelta_inv (T : PCoord → PCoord → Bool) (v : LNode) (st : LatticeState)
    (d : Int × Int) (h : LatticeInv T st) : LatticeInv T (procDelta T v st d) := by
  obtain ⟨hsync, hchain, hedge⟩ := h
  simp only [procDelta]
  split
  case isTrue hmem =>
    split
    case h_1 cv cb hv hb =>
      split
      case isTrue hconn =>
        refine ⟨hsync, hchain, ?_⟩
        intro e he
        rcases List.mem_cons.mp he with rfl | he'
        · exact ⟨cv, cb, hv, hb, hconn⟩
        · exact hedge e he'
      case isFalse => exact removeLatticeNode_inv T st _ ⟨hsync, hchain, hedge⟩
    case h_2 => exact ⟨hsync, hchain, hedge⟩
  case isFalse => exact ⟨hsync, hchain, hedge⟩

/-- One backward-neighbour step never adds nodes. -/
theorem procDelta_nodes_subset (T : PCoord → PCoord → Bool) (v : LNode)
    (st : LatticeState) (d : Int × Int) :
    ∀ u ∈ (procDelta T v st d).nodes, u ∈ st.nodes := by
  intro u hu
  simp only [procDelta] at hu
  split at hu
  case isTrue =>
    split at hu
    case h_1 =>
      split at hu
      case isTrue => exact hu
      case isFalse =>
        have : u ∈ st.nodes.filter (fun n => decide (n ≠ _)) := hu
        exact (List.mem_filter.mp this).1
    case h_2 => exact hu
  case isFalse => exact hu

/-- The backward-neighbour loop preserves the invariant. -/
theorem foldl_procDelta_inv (T : PCoord → PCoord → Bool) (v : LNode)
    (ds : List (Int × Int)) :
    ∀ st : LatticeState, LatticeInv T st → LatticeInv T (ds.foldl (procDelta T v) st) := by
  induction ds with
  | nil => intro st h; exact h
  | cons d ds ih => intro st h; exact ih _ (procDelta_inv T v st d h)

/-- The backward-neighbour loop never adds nodes. -/
theorem foldl_procDelta_nodes_subset (T : PCoord → PCoord → Bool) (v : LNode)
    (ds : List (Int × Int)) :
    ∀ (st : LatticeState) (u : LNode),
      u ∈ (ds.foldl (procDelta T v) st).nodes → u ∈ st.nodes := by
  induction ds with
  | nil => intro st u h; exact h
  | cons d ds ih =>
    intro st u h
    exact procDelta_nodes_subset T v st d u (ih _ u h)

/-- Adding a fresh embedded node preserves the invariant. -/
theorem consNode_inv (T : PCoord → PCoord → Bool) (st : LatticeState) (v : LNode)
    (c : Chain) (h : LatticeInv T st) (hT : T c.1 c.2 = true) (hfresh : v ∉ st.nodes) :
    LatticeInv T ⟨(v, c) :: st.emb, v :: st.nodes, st.edges⟩ := by
  obtain ⟨hsync, hchain, hedge⟩ := h
  refine ⟨?_, ?_, ?_⟩
  · intro u
    show (lookupEmb ((v, c) :: st.emb) u).isSome = true ↔ u ∈ v :: st.nodes
    rw [lookupEmb_cons]
    by_cases hu : u = v
    · simp [hu]
    · simp only [hu, ite_false, List.mem_cons]
      rw [hsync u]
      simp [hu]
  · intro u c' hc
    replace hc : lookupEmb ((v, c) :: st.emb) u = some c' := hc
    rw [lookupEmb_cons] at hc
    by_cases hu : u = v
    · rw [if_pos hu] at hc
      cases hc
      exact hT
    · rw [if_neg hu] at hc
      exact hchain u c' hc
  · intro e he
    replace he : e ∈ st.edges := he
    obtain ⟨c1, c2, h1, h2, hc⟩ := hedge e he
    have m1 : e.1 ∈ st.nodes := (hsync e.1).mp (by rw [h1]; rfl)
    have m2 : e.2 ∈ st.nodes := (hsync e.2).mp (by rw [h2]; rfl)
    have n1 : e.1 ≠ v := fun hq => hfresh (hq ▸ m1)
    have n2 : e.2 ≠ v := fun hq => hfresh (hq ▸ m2)
    refine ⟨c1, c2, ?_, ?_, hc⟩
    · show lookupEmb ((v, c) :: st.emb) e.1 = some c1
      rw [lookupEmb_cons, if_neg n1]; exact h1
    · show lookupEmb ((v, c) :: st.emb) e.2 = some c2
      rw [lookupEmb_cons, if_neg n2]; exact h2

/-- Processing a fresh grid position preserves the invariant. -/
theorem procNode_inv (T : PCoord → PCoord → Bool) (st : LatticeState) (rc : Nat × Nat)
    (h : LatticeInv T st)
    (hfresh : ((rc.1 : Int), (rc.2 : Int)) ∉ st.nodes) :
    LatticeInv T (procNode T st rc) := by
  simp only [procNode]
  split
  case isTrue hT =>
    exact foldl_procDelta_inv T _ latticeDeltas _
      (consNode_inv T st ((rc.1 : Int), (rc.2 : Int)) (nodeToChainTotal rc.1 rc.2) h hT hfresh)
  case isFalse => exact h

/-- Processing a grid position adds at most that position as a node. -/
theorem procNode_nodes_subset (T : PCoord → PCoord → Bool) (st : LatticeState)
    (rc : Nat × Nat) :
    ∀ u ∈ (procNode T st rc).nodes, u = ((rc.1 : Int), (rc.2 : Int)) ∨ u ∈ st.nodes := by
  intro u hu
  simp only [procNode] at hu
  split at hu
  case isTrue =>
    have := foldl_procDelta_nodes_subset T _ _ _ u hu
    simpa [List.mem_cons] using this
  case isFalse => exact Or.inr hu

/-- The whole grid loop preserves the invariant, given freshness of the
still-unprocessed positions. -/
theorem foldl_procNode_inv (T : PCoord → PCoord → Bool) :
    ∀ (l : List (Nat × Nat)) (st : LatticeState) (done : List LNode),
      LatticeInv T st →
      (∀ n ∈ st.nodes, n ∈ done) →
      (∀ rc ∈ l, ((rc.1 : Int), (rc.2 : Int)) ∉ done) →
      l.Nodup →
      LatticeInv T (l.foldl (procNode T) st) := by
  intro l
  induction l with
  | nil => intro st done h _ _ _; exact h
  | cons rc l ih =>
    intro st done hinv hdone hfresh hnodup
    rw [List.foldl_cons]
    have hfr : ((rc.1 : Int), (rc.2 : Int)) ∉ st.nodes := fun hmem =>
      hfresh rc (List.mem_cons_self rc l) (hdone _ hmem)
    refine ih (procNode T st rc) (((rc.1 : Int), (rc.2 : Int)) :: done)
      (procNode_inv T st rc hinv hfr) ?_ ?_ (List.nodup_cons.mp hnodup).2
    · intro n hn
      rcases procNode_nodes_subset T st rc n hn with h | h
      · exact h ▸ List.mem_cons_self _ _
      · exact List.mem_cons_of_mem _ (hdone n h)
    · intro rc' hrc'
      simp only [List.mem_cons, not_or]
      constructor
      · intro heq
        have hrr : rc' = rc := by
          obtain ⟨a, b⟩ := rc
          obtain ⟨a', b'⟩ := rc'
          simp only [Prod.mk.injEq] at heq ⊢
          omega
        exact (List.nodup_cons.mp hnodup).1 (hrr ▸ hrc')
      · exact hfresh rc' (List.mem_cons_of_mem _ hrc')

/-- Unfolding `anyConnected` into the existence of a connected qubit pair. -/
theorem anyConnected_exists (T : PCoord → PCoord → Bool) (c1 c2 : Chain)
    (h : anyConnected T c1 c2 = true) :
    ∃ q1 q2, (q1 = c1.1 ∨ q1 = c1.2) ∧ (q2 = c2.1 ∨ q2 = c2.2) ∧ T q1 q2 = true := by
  simp only [anyConnected, Bool.or_eq_true] at h
  rcases h with ((h | h) | h) | h
  · exact ⟨c1.1, c2.1, Or.inl rfl, Or.inl rfl, h⟩
  · exact ⟨c1.1, c2.2, Or.inl rfl, Or.inr rfl, h⟩
  · exact ⟨c1.2, c2.1, Or.inr rfl, Or.inl rfl, h⟩
  · exact ⟨c1.2, c2.2, Or.inr rfl, Or.inr rfl, h⟩

/-- C8: for every target graph `T` and every lattice scale, the pair
`(emb, source)` built by `_create_lattice` satisfies: the key set of `emb`
equals the node set of `source`; every chain `emb[v]` is an edge of the
target; and for every edge `(u, v)` of `source` there are qubits `q1` in
`emb[u]` and `q2` in `emb[v]` joined by a target edge — including after the
backward defect-deletion steps. -/
theorem create_lattice_invariant (T : PCoord → PCoord → Bool) (scale : Nat) :
    (∀ v, (lookupEmb (create_lattice T scale).emb v).isSome = true ↔
        v ∈ (create_lattice T scale).nodes) ∧
    (∀ v c, lookupEmb (create_lattice T scale).emb v = some c → T c.1 c.2 = true) ∧
    (∀ e ∈ (create_lattice T scale).edges,
      ∃ c1 c2, lookupEmb (create_lattice T scale).emb e.1 = some c1 ∧
        lookupEmb (create_lattice T scale).emb e.2 = some c2 ∧
        ∃ q1 q2, (q1 = c1.1 ∨ q1 = c1.2) ∧ (q2 = c2.1 ∨ q2 = c2.2) ∧ T q1 q2 = true) := by
  have base : LatticeInv T ⟨[], [], []⟩ := by
    refine ⟨fun v => ?_, fun v c hc => ?_, fun e he => ?_⟩
    · simp [lookupEmb]
    · cases hc
    · cases he
  have h := foldl_procNode_inv T (gridPositions scale) ⟨[], [], []⟩ []
    base (fun n hn => by cases hn) (fun rc _ => by simp)
    ((List.nodup_range scale).product (List.nodup_range scale))
  obtain ⟨h1, h2, h3⟩ := h
  refine ⟨h1, h2, fun e he => ?_⟩
  obtain ⟨c1, c2, hc1, hc2, hconn⟩ := h3 e he
  exact ⟨c1, c2, hc1, hc2, anyConnected_exists T c1 c2 hconn⟩

/-- Witness for `create_lattice_invariant`: on the all-edges target with
scale 1, the node `(0, 0)` is embedded. -/
theorem create_lattice_invariant_witness :
    (lookupEmb (create_lattice (fun _ _ => true) 1).emb (0, 0)).isSome = true :=
  ((create_lattice_invariant (fun _ _ => true) 1).1 (0, 0)).mpr (by decide)

/-! ### The receiver-phase invariant of `configure_network` -/

/-- Attribute lookup through a pointwise receiver update, list form. -/
theorem attrLookup_map_rx (p : LNode → Bool) (v : Nat) (l : List (LNode × Nat × Nat))
    (n : LNode) :
    attrLookup (l.map (fun e => if p e.1 then (e.1, (e.2.1, v)) else e)) n =
      (attrLookup l n).map (fun a => if p n then (a.1, v) else a) := by
  induction l with
  | nil => rfl
  | cons hd tl ih =>
    obtain ⟨k, a⟩ := hd
    rw [List.map_cons]
    have hf : (if p (k, a).1 = true then ((k, a).1, ((k, a).2.1, v)) else (k, a))
        = if p k = true then (k, (a.1, v)) else (k, a) := rfl
    rw [hf]
    by_cases hpk : p k <;> by_cases hnk : n = k
    · subst hnk
      rw [if_pos hpk, attrLookup, if_pos rfl, attrLookup, if_pos rfl]
      simp [hpk]
    · rw [if_pos hpk, attrLookup, if_neg hnk, attrLookup, if_neg hnk, ih]
    · subst hnk
      rw [if_neg hpk, attrLookup, if_pos rfl, attrLookup, if_pos rfl]
      simp [hpk]
    · rw [if_neg hpk, attrLookup, if_neg hnk, attrLookup, if_neg hnk, ih]

/-- Attribute lookup through a `num_receivers` update. -/
theorem attrLookup_setRxWhere (p : LNode → Bool) (v : Nat) (net : MNetwork) (n : LNode) :
    attrLookup (setRxWhere p v net).attrs n =
      (attrLookup net.attrs n).map (fun a => if p n then (a.1, v) else a) :=
  attrLookup_map_rx p v net.attrs n

/-- `setRxWhere` leaves the edge list unchanged. -/
theorem setRxWhere_edges (p : LNode → Bool) (v : Nat) (net : MNetwork) :
    (setRxWhere p v net).edges = net.edges := rfl

/-- `setRxWhere` does not change which nodes carry attributes. -/
theorem setRxWhere_isSome (p : LNode → Bool) (v : Nat) (net : MNetwork) (n : LNode) :
    (attrLookup (setRxWhere p v net).attrs n).isSome =
      (attrLookup net.attrs n).isSome := by
  rw [attrLookup_setRxWhere]
  cases attrLookup net.attrs n <;> rfl

/-- `setRxWhere` preserves the `num_transmitters` value (backwards form). -/
theorem setRxWhere_t_back (p : LNode → Bool) (v : Nat) (net : MNetwork)
    (n : LNode) (t r : Nat)
    (h : attrLookup (setRxWhere p v net).attrs n = some (t, r)) :
    ∃ r0, attrLookup net.attrs n = some (t, r0) ∧ (r = r0 ∨ r = v) := by
  rw [attrLookup_setRxWhere] at h
  cases ha : attrLookup net.attrs n with
  | none => rw [ha] at h; cases h
  | some a =>
    obtain ⟨t0, r0⟩ := a
    rw [ha] at h
    by_cases hp : p n
    · simp only [hp, ite_true, Option.map_some', Option.some.injEq, Prod.mk.injEq] at h
      exact ⟨r0, by rw [h.1], Or.inr h.2.symm⟩
    · simp only [hp, Bool.false_eq_true, ite_false, Option.map_some',
        Option.some.injEq, Prod.mk.injEq] at h
      exact ⟨r0, by rw [h.1], Or.inl h.2.symm⟩

/-- Upper bound on receiver attributes is preserved by `setRxWhere` with a
value at most 1. -/
theorem setRxWhere_RxLe1 (p : LNode → Bool) (v : Nat) (net : MNetwork)
    (hv : v ≤ 1) (h : RxLe1 net) : RxLe1 (setRxWhere p v net) := by
  intro e he
  replace he : e ∈ net.attrs.map _ := he
  simp only [List.mem_map] at he
  obtain ⟨e0, he0, heq⟩ := he
  by_cases hp : p e0.1
  · rw [← heq]; simpa [hp] using hv
  · rw [← heq]; simpa [hp] using h e0 he0

/-- A receiver flag equal to 1 survives `setRxWhere _ 1`. -/
theorem setRxWhere_rx1 (p : LNode → Bool) (net : MNetwork) (m : LNode)
    (h : rxOf net m = 1) : rxOf (setRxWhere p 1 net) m = 1 := by
  unfold rxOf at h ⊢
  rw [attrLookup_setRxWhere]
  cases hm : attrLookup net.attrs m with
  | none => rw [hm] at h; cases h
  | some a =>
    rw [hm] at h
    replace h : a.2 = 1 := h
    by_cases hp : p m <;> simp [hp, h]

/-- A selected, present node gets receiver flag `v` from `setRxWhere`. -/
theorem setRxWhere_rx_self (p : LNode → Bool) (v : Nat) (net : MNetwork) (m : LNode)
    (hp : p m = true) (hs : (attrLookup net.attrs m).isSome = true) :
    rxOf (setRxWhere p v net) m = v := by
  unfold rxOf
  rw [attrLookup_setRxWhere]
  cases hm : attrLookup net.attrs m with
  | none => rw [hm] at hs; cases hs
  | some a => simp [hp]

/-- `setRxWhere` preserves well-formedness of edge endpoints. -/
theorem setRxWhere_EdgesKeys (p : LNode → Bool) (v : Nat) (net : MNetwork)
    (h : EdgesKeys net) : EdgesKeys (setRxWhere p v net) := by
  intro e he
  replace he : e ∈ net.edges := he
  obtain ⟨h1, h2⟩ := h e he
  exact ⟨by rw [setRxWhere_isSome]; exact h1, by rw [setRxWhere_isSome]; exact h2⟩

/-- A successful lookup is a list member. -/
theorem attrLookup_mem (l : List (LNode × Nat × Nat)) (n : LNode) (a : Nat × Nat)
    (h : attrLookup l n = some a) : (n, a) ∈ l := by
  induction l with
  | nil => cases h
  | cons hd tl ih =>
    obtain ⟨k, b⟩ := hd
    by_cases hk : n = k
    · rw [attrLookup, if_pos hk] at h
      cases h
      rw [hk]
      exact List.mem_cons_self _ _
    · rw [attrLookup, if_neg hk] at h
      exact List.mem_cons_of_mem _ (ih h)

/-- Receiver flags are bounded by 1 under `RxLe1`. -/
theorem rxOf_le_one (net : MNetwork) (h : RxLe1 net) (m : LNode) : rxOf net m ≤ 1 := by
  unfold rxOf
  cases hm : attrLookup net.attrs m with
  | none => exact Nat.zero_le 1
  | some a => exact h (m, a) (attrLookup_mem _ _ _ hm)

/-- A transmitter entry puts its node in `txNodesOf`. -/
theorem mem_txNodesOf (net : MNetwork) (n : LNode) (r : Nat)
    (h : attrLookup net.attrs n = some (1, r)) : n ∈ txNodesOf net := by
  have hm := attrLookup_mem _ _ _ h
  simp only [txNodesOf, List.mem_map, List.mem_filter]
  exact ⟨(n, (1, r)), ⟨hm, by simp⟩, rfl⟩

/-- Adjacency-list membership gives a graph edge. -/
theorem mem_adjList (net : MNetwork) (n m : LNode) (h : m ∈ adjList net n) :
    isNeighbor net n m := by
  simp only [adjList, List.mem_filterMap] at h
  obtain ⟨⟨a, b⟩, he, hm⟩ := h
  by_cases h1 : a = n
  · simp only [h1, ite_true] at hm
    injection hm with hm
    subst h1; subst hm
    exact Or.inl he
  · by_cases h2 : b = n
    · simp only [h1, ite_false, h2, ite_true] at hm
      injection hm with hm
      subst h2; subst hm
      exact Or.inr he
    · simp [h1, h2] at hm

/-- A nonzero sum over a mapped list has a nonzero element. -/
theorem exists_of_sum_ne_zero (l : List LNode) (f : LNode → Nat)
    (h : (l.map f).sum ≠ 0) : ∃ m ∈ l, f m ≠ 0 := by
  induction l with
  | nil => simp at h
  | cons x xs ih =>
    rw [List.map_cons, List.sum_cons] at h
    by_cases hx : f x = 0
    · obtain ⟨m, hm, hfm⟩ := ih (by omega)
      exact ⟨m, List.mem_cons_of_mem _ hm, hfm⟩
    · exact ⟨x, List.mem_cons_self _ _, hx⟩

/-- Indexing a non-empty list modulo its length stays inside the list. -/
theorem getD_mod_mem (l : List LNode) (j : Nat) (hne : ¬ l.isEmpty = true) :
    l.getD (j % l.length) (0, 0) ∈ l := by
  have hlen : 0 < l.length := by
    cases l with
    | nil => simp at hne
    | cons x xs => simp
  have hj : j % l.length < l.length := Nat.mod_lt _ hlen
  rw [List.getD_eq_getElem _ _ hj]
  exact List.getElem_mem _

/-- Shape of a terminating dilution loop: edges unchanged, node set
unchanged, `num_transmitters` preserved, receiver bound preserved. -/
theorem diluteLoop_shape (numTx : Nat) (ratio : ℚ)
    (sampleO : Nat → List LNode → Nat → List LNode) :
    ∀ (fuel : Nat) (net : MNetwork) (rxN : List LNode) (toDel : Int) (net' : MNetwork),
      diluteLoop numTx ratio sampleO fuel net rxN toDel = some net' →
      net'.edges = net.edges ∧
      (∀ n, (attrLookup net'.attrs n).isSome = (attrLookup net.attrs n).isSome) ∧
      (∀ n t r, attrLookup net'.attrs n = some (t, r) →
        ∃ r0, attrLookup net.attrs n = some (t, r0)) ∧
      (RxLe1 net → RxLe1 net') := by
  intro fuel
  induction fuel with
  | zero =>
    intro net rxN toDel net' h
    rw [diluteLoop] at h
    split at h
    · cases h
    · cases h
      exact ⟨rfl, fun n => rfl, fun n t r hh => ⟨r, hh⟩, id⟩
  | succ f ih =>
    intro net rxN toDel net' h
    rw [diluteLoop] at h
    split at h
    · cases h
      exact ⟨rfl, fun n => rfl, fun n t r hh => ⟨r, hh⟩, id⟩
    · split at h
      · cases h
      · obtain ⟨he, hs, hb, hr⟩ := ih _ _ _ _ h
        refine ⟨?_, ?_, ?_, ?_⟩
        · rw [he]; rfl
        · intro n; rw [hs n, setRxWhere_isSome]
        · intro n t r hh
          obtain ⟨r1, h1⟩ := hb n t r hh
          obtain ⟨r0, h0, _⟩ := setRxWhere_t_back _ _ _ _ _ _ h1
          exact ⟨r0, h0⟩
        · intro hRx
          exact hr (setRxWhere_RxLe1 _ _ _ (by omega) hRx)

/-- Shape of a successful fix-up loop: edges unchanged, `num_transmitters`
preserved. -/
theorem fixupLoop_shape (pick : Nat → Nat) :
    ∀ (txs : List LNode) (i : Nat) (net net' : MNetwork),
      fixupLoop pick txs i net = some net' →
      net'.edges = net.edges ∧
      (∀ n t r, attrLookup net'.attrs n = some (t, r) →
        ∃ r0, attrLookup net.attrs n = some (t, r0)) := by
  intro txs
  induction txs with
  | nil =>
    intro i net net' h
    cases h
    exact ⟨rfl, fun n t r hh => ⟨r, hh⟩⟩
  | cons tx rest ih =>
    intro i net net' h
    rw [fixupLoop] at h
    split at h
    · simp only [] at h
      split at h
      · cases h
      · obtain ⟨he, hb⟩ := ih _ _ _ h
        refine ⟨by rw [he]; rfl, ?_⟩
        intro n t r hh
        obtain ⟨r1, h1⟩ := hb n t r hh
        obtain ⟨r0, h0, _⟩ := setRxWhere_t_back _ _ _ _ _ _ h1
        exact ⟨r0, h0⟩
    · exact ih _ _ _ h

/-- A receiver flag equal to 1 survives a successful fix-up loop. -/
theorem fixupLoop_rx1 (pick : Nat → Nat) :
    ∀ (txs : List LNode) (i : Nat) (net net' : MNetwork) (m : LNode),
      fixupLoop pick txs i net = some net' →
      rxOf net m = 1 → rxOf net' m = 1 := by
  intro txs
  induction txs with
  | nil =>
    intro i net net' m h hm
    cases h
    exact hm
  | cons tx rest ih =>
    intro i net net' m h hm
    rw [fixupLoop] at h
    split at h
    · simp only [] at h
      split at h
      · cases h
      · exact ih _ _ _ _ h (setRxWhere_rx1 _ _ _ hm)
    · exact ih _ _ _ _ h hm

/-- Attribute lookup through `add_nodes_from` of a single node. -/
theorem attrLookup_addOrUpdate (k : LNode) (a : Nat × Nat) :
    ∀ (l : List (LNode × Nat × Nat)) (n : LNode),
      attrLookup (addOrUpdate l k a) n = if n = k then some a else attrLookup l n := by
  intro l
  induction l with
  | nil => intro n; rfl
  | cons hd tl ih =>
    intro n
    obtain ⟨k2, a2⟩ := hd
    rw [addOrUpdate]
    by_cases hk : k = k2
    · rw [if_pos hk]
      by_cases hn : n = k
      · rw [attrLookup, if_pos hn, if_pos hn]
      · rw [attrLookup, if_neg hn, if_neg hn, attrLookup, if_neg (hk ▸ hn)]
    · rw [if_neg hk]
      by_cases hn : n = k2
      · have hnk : ¬ n = k := fun hq => hk (hq.symm.trans hn)
        rw [attrLookup, if_pos hn, if_neg hnk, attrLookup, if_pos hn]
      · rw [attrLookup, if_neg hn, ih n, attrLookup, if_neg hn]

/-- Every entry after `addOrUpdate` satisfies a property held by the old
entries and by the inserted one. -/
theorem addOrUpdate_forall (P : LNode × Nat × Nat → Prop) (k : LNode) (a : Nat × Nat) :
    ∀ (l : List (LNode × Nat × Nat)), (∀ e ∈ l, P e) → P (k, a) →
      ∀ e ∈ addOrUpdate l k a, P e := by
  intro l
  induction l with
  | nil =>
    intro _ ha e he
    rw [addOrUpdate] at he
    rcases List.mem_singleton.mp he with rfl
    exact ha
  | cons hd tl ih =>
    intro hl ha e he
    obtain ⟨k2, a2⟩ := hd
    rw [addOrUpdate] at he
    by_cases hk : k = k2
    · rw [if_pos hk] at he
      rcases List.mem_cons.mp he with rfl | he2
      · exact ha
      · exact hl e (List.mem_cons_of_mem _ he2)
    · rw [if_neg hk] at he
      rcases List.mem_cons.mp he with rfl | he2
      · exact hl _ (List.mem_cons_self _ _)
      · exact ih (fun e2 he2' => hl e2 (List.mem_cons_of_mem _ he2')) ha e he2

/-- Entry properties through the receiver-insertion fold. -/
theorem foldl_addOrUpdate_forall (P : LNode × Nat × Nat → Prop)
    (h01 : ∀ k, P (k, (0, 1))) :
    ∀ (rxs : List LNode) (l : List (LNode × Nat × Nat)), (∀ e ∈ l, P e) →
      ∀ e ∈ rxs.foldl (fun acc p => addOrUpdate acc p (0, 1)) l, P e := by
  intro rxs
  induction rxs with
  | nil => intro l hl; exact hl
  | cons x xs ih =>
    intro l hl
    rw [List.foldl_cons]
    exact ih _ (addOrUpdate_forall P x (0, 1) l hl (h01 x))

/-- Present keys stay present through the receiver-insertion fold. -/
theorem foldl_addOrUpdate_isSome :
    ∀ (rxs : List LNode) (l : List (LNode × Nat × Nat)) (n : LNode),
      (attrLookup l n).isSome = true →
      (attrLookup (rxs.foldl (fun acc p => addOrUpdate acc p (0, 1)) l) n).isSome = true := by
  intro rxs
  induction rxs with
  | nil => intro l n h; exact h
  | cons x xs ih =>
    intro l n h
    rw [List.foldl_cons]
    apply ih
    rw [attrLookup_addOrUpdate]
    by_cases hn : n = x
    · rw [if_pos hn]; rfl
    · rw [if_neg hn]; exact h

/-- Inserted keys are present after the receiver-insertion fold. -/
theorem foldl_addOrUpdate_isSome_of_mem :
    ∀ (rxs : List LNode) (l : List (LNode × Nat × Nat)) (n : LNode), n ∈ rxs →
      (attrLookup (rxs.foldl (fun acc p => addOrUpdate acc p (0, 1)) l) n).isSome = true := by
  intro rxs
  induction rxs with
  | nil => intro l n h; cases h
  | cons x xs ih =>
    intro l n h
    rw [List.foldl_cons]
    rcases List.mem_cons.mp h with rfl | h2
    · apply foldl_addOrUpdate_isSome
      rw [attrLookup_addOrUpdate, if_pos rfl]
      rfl
    · exact ih _ n h2

/-- The initial all-transmitter network has present keys for its nodes. -/
theorem attrLookup_init_isSome :
    ∀ (dts : List LNode) (n : LNode), n ∈ dts →
      (attrLookup (dts.map (fun m => (m, ((1 : Nat), (0 : Nat))))) n).isSome = true := by
  intro dts
  induction dts with
  | nil => intro n h; cases h
  | cons x xs ih =>
    intro n h
    simp only [List.map_cons]
    rw [attrLookup]
    by_cases hn : n = x
    · rw [if_pos hn]; rfl
    · rw [if_neg hn]
      rcases List.mem_cons.mp h with rfl | h2
      · exact absurd rfl hn
      · exact ih n h2

/-- The receiver-adding loop preserves the receiver bound, endpoint
well-formedness, and presence of listed keys. -/
theorem addRxNodes_inv :
    ∀ (txs : List LNode) (net : MNetwork),
      RxLe1 net → EdgesKeys net →
      (∀ n ∈ txs, (attrLookup net.attrs n).isSome = true) →
      RxLe1 (addRxNodes net txs) ∧ EdgesKeys (addRxNodes net txs) := by
  intro txs
  induction txs with
  | nil => intro net h1 h2 _; exact ⟨h1, h2⟩
  | cons n rest ih =>
    intro net h1 h2 h3
    rw [addRxNodes, List.foldl_cons]
    refine ih _ ?_ ?_ ?_
    · intro e he
      replace he : e ∈ List.foldl (fun a p => addOrUpdate a p (0, 1)) net.attrs
          (rxOffsets.map (fun d => (n.1 + d.1, n.2 + d.2))) := he
      exact foldl_addOrUpdate_forall (fun e => e.2.2 ≤ 1) (fun k => le_refl 1) _
        net.attrs h1 e he
    · intro e he
      replace he : e ∈ net.edges ++
          (rxOffsets.map (fun d => (n.1 + d.1, n.2 + d.2))).map (fun p => (n, p)) := he
      have goal1 : ∀ m : LNode, (attrLookup net.attrs m).isSome = true →
          (attrLookup (List.foldl (fun a p => addOrUpdate a p (0, 1)) net.attrs
            (rxOffsets.map (fun d => (n.1 + d.1, n.2 + d.2)))) m).isSome = true :=
        fun m hm => foldl_addOrUpdate_isSome _ _ _ hm
      rcases List.mem_append.mp he with hold | hnew
      · obtain ⟨ha, hb⟩ := h2 e hold
        exact ⟨goal1 _ ha, goal1 _ hb⟩
      · obtain ⟨p, hp, rfl⟩ := List.mem_map.mp hnew
        exact ⟨goal1 _ (h3 n (List.mem_cons_self _ _)),
          foldl_addOrUpdate_isSome_of_mem _ _ _ hp⟩
    · intro m hm
      show (attrLookup (List.foldl (fun a p => addOrUpdate a p (0, 1)) net.attrs
        (rxOffsets.map (fun d => (n.1 + d.1, n.2 + d.2)))) m).isSome = true
      exact foldl_addOrUpdate_isSome _ _ _ (h3 m (List.mem_cons_of_mem _ hm))

/-- The initial network: receiver bound and endpoint well-formedness. -/
theorem initialNetwork_inv (dts : List LNode) :
    RxLe1 (initialNetwork dts) ∧ EdgesKeys (initialNetwork dts) ∧
      (∀ n ∈ dts, (attrLookup (initialNetwork dts).attrs n).isSome = true) := by
  refine ⟨?_, ?_, ?_⟩
  · intro e he
    replace he : e ∈ dts.map (fun m => (m, ((1 : Nat), (0 : Nat)))) := he
    simp only [List.mem_map] at he
    obtain ⟨m, _, rfl⟩ := he
    exact Nat.zero_le 1
  · intro e he
    cases he
  · intro n hn
    exact attrLookup_init_isSome dts n hn

/-- The disconnected-transmitter fix-up loop leaves every listed transmitter
with at least one receiver neighbour. -/
theorem fixupLoop_ensures (pick : Nat → Nat) :
    ∀ (txs : List LNode) (i : Nat) (net net' : MNetwork),
      fixupLoop pick txs i net = some net' →
      RxLe1 net → EdgesKeys net →
      ∀ tx ∈ txs, ∃ m, isNeighbor net' tx m ∧ rxOf net' m = 1 := by
  intro txs
  induction txs with
  | nil => intro i net net' h _ _ tx htx; cases htx
  | cons tx0 rest ih =>
    intro i net net' h hrx hek tx htx
    rw [fixupLoop] at h
    split at h
    case isTrue hsum =>
      simp only [] at h
      split at h
      case isTrue hemp => cases h
      case isFalse hemp =>
        have hmemc := getD_mod_mem
          (List.filter (fun n => decide (rxOf net n = 0)) (adjList net tx0)) (pick i) hemp
        have hadj : (List.filter (fun n => decide (rxOf net n = 0))
            (adjList net tx0)).getD (pick i %
              (List.filter (fun n => decide (rxOf net n = 0)) (adjList net tx0)).length)
            (0, 0) ∈ adjList net tx0 := (List.mem_filter.mp hmemc).1
        have hnb := mem_adjList net tx0 _ hadj
        have hpres : (attrLookup net.attrs
            ((List.filter (fun n => decide (rxOf net n = 0)) (adjList net tx0)).getD
              (pick i % (List.filter (fun n => decide (rxOf net n = 0))
                (adjList net tx0)).length) (0, 0))).isSome = true := by
          rcases hnb with he | he
          · exact (hek _ he).2
          · exact (hek _ he).1
        have hrx2 := setRxWhere_rx_self
          (fun n => decide (n = (List.filter (fun n => decide (rxOf net n = 0))
            (adjList net tx0)).getD (pick i %
              (List.filter (fun n => decide (rxOf net n = 0)) (adjList net tx0)).length)
            (0, 0))) 1 net _ (by simp) hpres
        rcases List.mem_cons.mp htx with rfl | htx2
        · refine ⟨_, ?_, fixupLoop_rx1 pick rest (i + 1) _ net' _ h hrx2⟩
          have he1 := (fixupLoop_shape pick rest (i + 1) _ net' h).1
          show (tx, _) ∈ net'.edges ∨ (_, tx) ∈ net'.edges
          rw [he1, setRxWhere_edges]
          exact hnb
        · exact ih (i + 1) _ net' h
            (setRxWhere_RxLe1 _ 1 net (le_refl 1) hrx)
            (setRxWhere_EdgesKeys _ 1 net hek) tx htx2
    case isFalse hsum =>
      rcases List.mem_cons.mp htx with rfl | htx2
      · obtain ⟨m, hm, hfm⟩ := exists_of_sum_ne_zero (adjList net tx) (fun n => rxOf net n) hsum
        have hm1 : rxOf net m = 1 :=
          Nat.le_antisymm (rxOf_le_one net hrx m) (Nat.one_le_iff_ne_zero.mpr hfm)
        refine ⟨m, ?_, fixupLoop_rx1 pick rest (i + 1) net net' m h hm1⟩
        have he1 := (fixupLoop_shape pick rest (i + 1) net net' h).1
        show (tx, m) ∈ net'.edges ∨ (m, tx) ∈ net'.edges
        rw [he1]
        exact mem_adjList net tx m hm
      · exact ih (i + 1) net net' h hrx hek tx htx2

/-- C9: in any network returned by the receiver phase of
`configure_network`, every node with `num_transmitters = 1` has at least one
neighbour with `num_receivers = 1`, regardless of the requested ratio, the
random dilution and the random fix-up choices. -/
theorem configure_network_tx_connected (srcNodes : List (Int × Int)) (ratio : ℚ)
    (fuel : Nat) (sampleO : Nat → List LNode → Nat → List LNode) (pick : Nat → Nat)
    (net : MNetwork)
    (h : configureNetworkPhase srcNodes ratio fuel sampleO pick = some net) :
    ∀ (n : LNode) (t r : Nat), attrLookup net.attrs n = some (t, r) → t = 1 →
      ∃ m, isNeighbor net n m ∧ rxOf net m = 1 := by
  intro n t r hattr ht
  subst ht
  simp only [configureNetworkPhase] at h
  set dts := srcNodes.map (fun n => (2 * n.1, 2 * n.2)) with hdts
  set net1 := addRxNodes (initialNetwork dts) dts with hnet1
  set net2 := boundaryNetwork net1 with hnet2
  split at h
  case isTrue => cases h
  case isFalse hne =>
    split at h
    case isTrue => cases h
    case isFalse hr0 =>
      split at h
      case h_1 => cases h
      case h_2 net3 hdil =>
        have hinit := initialNetwork_inv dts
        have hadd := addRxNodes_inv dts (initialNetwork dts) hinit.1 hinit.2.1 hinit.2.2
        have hrxb2 : RxLe1 net2 :=
          setRxWhere_RxLe1 _ 0 net1 (Nat.zero_le 1) hadd.1
        have hek2 : EdgesKeys net2 :=
          setRxWhere_EdgesKeys _ 0 net1 hadd.2
        obtain ⟨hed3, hsome3, hback3, hrxp3⟩ :=
          diluteLoop_shape (txNodesOf net2).length ratio sampleO fuel net2
            (rxNodesOf net2) _ net3 hdil
        have hrxb3 : RxLe1 net3 := hrxp3 hrxb2
        have hek3 : EdgesKeys net3 := by
          intro e he
          rw [hed3] at he
          obtain ⟨ha, hb⟩ := hek2 e he
          rw [hsome3 e.1, hsome3 e.2]
          exact ⟨ha, hb⟩
        obtain ⟨hedF, hbackF⟩ := fixupLoop_shape pick (txNodesOf net2) 0 net3 net h
        obtain ⟨r3, h3⟩ := hbackF n 1 r hattr
        obtain ⟨r2, h2⟩ := hback3 n 1 r3 h3
        exact fixupLoop_ensures pick (txNodesOf net2) 0 net3 net h hrxb3 hek3 n
          (mem_txNodesOf net2 n r2 h2)

/-- Witness for `configure_network_tx_connected` on a one-node source
lattice with `ratio = 1`. -/
theorem configure_network_tx_connected_witness :
    ∃ m, isNeighbor (⟨[((0, 0), (1, 0)), ((-1, -1), (0, 1)), ((-1, 1), (0, 0)),
        ((1, -1), (0, 0)), ((1, 1), (0, 0))],
        [((0, 0), (-1, -1)), ((0, 0), (-1, 1)), ((0, 0), (1, -1)), ((0, 0), (1, 1))]⟩ :
        MNetwork) (0, 0) m ∧
      rxOf (⟨[((0, 0), (1, 0)), ((-1, -1), (0, 1)), ((-1, 1), (0, 0)),
        ((1, -1), (0, 0)), ((1, 1), (0, 0))],
        [((0, 0), (-1, -1)), ((0, 0), (-1, 1)), ((0, 0), (1, -1)), ((0, 0), (1, 1))]⟩ :
        MNetwork) m = 1 :=
  configure_network_tx_connected [(0, 0)] 1 0 (fun _ _ _ => []) (fun _ => 0)
    ⟨[((0, 0), (1, 0)), ((-1, -1), (0, 1)), ((-1, 1), (0, 0)),
        ((1, -1), (0, 0)), ((1, 1), (0, 0))],
      [((0, 0), (-1, -1)), ((0, 0), (-1, 1)), ((0, 0), (1, -1)), ((0, 0), (1, 1))]⟩
    (by decide) (0, 0) 1 0 (by decide) rfl
